import Mathlib

unseal Rat.add Rat.sub Rat.mul Rat.inv Rat.ofScientific

/-!
Verification development for the ReLuLu Systemic Risk & Netting Engine.

The Python backend is shallowly embedded in Lean:
* IEEE-754 doubles are modelled by exact rationals `ℚ` wherever the code only
  uses field operations and comparisons, and by real numbers `ℝ` where the
  claims concern derivatives or eigen-analysis;
* `numpy`/`torch` tensors become functions out of `Fin n`;
* exceptions become `Except`, mutable module state becomes explicit state
  passing.

Definitions mirror the corresponding Python functions and keep their names.
-/

namespace ReLuLu

/- ------------------------------------------------------------------ -/
/- backend/core/forecast_engine.py : ForecastEngine._build_obligations -/
/- ------------------------------------------------------------------ -/

/-- `ForecastEngine._build_obligations` (forecast_engine.py:188-200).
`amplified = torch.clamp(node_scores * 100, min=-0.9, max=2.0)`;
`scale = 1 + amplified`; row `i` of `base_obligations` is multiplied by
`scale i` (the `unsqueeze(-1)` broadcast), clamped below at 0, and the
diagonal is zeroed by `fill_diagonal_(0)`. -/
def build_obligations {n : ℕ} (node_scores : Fin n → ℚ)
    (base_obligations : Matrix (Fin n) (Fin n) ℚ) : Matrix (Fin n) (Fin n) ℚ :=
  let amplified : Fin n → ℚ := fun i => min (max (node_scores i * 100) (-0.9)) 2.0
  let scale : Fin n → ℚ := fun i => 1 + amplified i
  fun i j =>
    if i = j then 0
    else max (base_obligations i j * scale i) 0

/- ------------------------------------------------------------------ -/
/- backend/core/alerts.py : AlertManager                               -/
/- ------------------------------------------------------------------ -/

/-- Alert type tag constants of `AlertManager` (alerts.py:21-23). -/
def ALERT_STABILITY_THRESHOLD : String := "stability_threshold"

def ALERT_PAYLOAD_CHANGE : String := "payload_change"

def ALERT_HUB_SHIFT : String := "hub_shift"

/-- One persisted alert rule (the dict shape built in `create_alert`). -/
structure Alert where
  id : String
  type : String
  name : String
  description : String
  threshold : ℚ
  enabled : Bool
deriving DecidableEq

/-- The scalar fields of the snapshot dict that `check_alerts` reads via
`forecast_data.get(...)`; a `none` field models a missing dict key. -/
structure ForecastData where
  stability : Option ℚ
  payload_reduction : Option ℚ
deriving DecidableEq

/-- The per-rule trigger test inside the loop of `AlertManager.check_alerts`
(alerts.py:159-176): `stability_threshold` fires when
`forecast_data.get("stability", 0) >= threshold`; `payload_change` fires when
`forecast_data.get("payload_reduction", 100) < threshold`; `hub_shift` is a
bare `pass` (never fires, raises nothing); any other type leaves
`is_triggered` false. -/
def alertFires (d : ForecastData) (a : Alert) : Bool :=
  if a.type = ALERT_STABILITY_THRESHOLD then
    decide (a.threshold ≤ d.stability.getD 0)
  else if a.type = ALERT_PAYLOAD_CHANGE then
    decide (d.payload_reduction.getD 100 < a.threshold)
  else
    false

/-- `current_value` of a triggered alert (alerts.py:183):
`forecast_data.get("stability") or forecast_data.get("payload_reduction")` —
Python `or` falls through when the first operand is `None` or `0`. -/
def currentValue (d : ForecastData) : Option ℚ :=
  match d.stability with
  | some v => if v = 0 then d.payload_reduction else some v
  | none => d.payload_reduction

/-- `AlertManager.check_alerts` (alerts.py:142-190): iterate over the rules,
skip disabled ones (`if not alert.get("enabled", True): continue`), collect a
triggered record for each firing rule.  The record is modelled as the rule
snapshot paired with its observed `current_value`; the human-readable message
string (pure float formatting) is not modelled. -/
def check_alerts (alerts : List Alert) (d : ForecastData) :
    List (Alert × Option ℚ) :=
  (alerts.filter (fun a => a.enabled && alertFires d a)).map
    (fun a => (a, currentValue d))

/- ------------------------------------------------------------------ -/
/- backend/core/optimize.py : OptimizationNode.minimize_payload        -/
/- ------------------------------------------------------------------ -/

/-- The numerical epsilon below which a netted edge is pruned
(optimize.py:63, literal `1e-5`). -/
def NET_EPS : ℚ := 1e-5

/-- A weighted digraph on `Fin n`, as built by `nx.DiGraph(array)`: an edge
carries a rational weight, a missing edge is `none`. -/
def WGraph (n : ℕ) : Type := Fin n → Fin n → Option ℚ

/-- `nx.DiGraph(M)`: one weighted edge per nonzero matrix entry. -/
def graphOf {n : ℕ} (M : Matrix (Fin n) (Fin n) ℚ) : WGraph n :=
  fun i j => if M i j = 0 then none else some (M i j)

/-- `G.size(weight="weight")`: total edge weight of the graph. -/
def gSize {n : ℕ} (G : WGraph n) : ℚ :=
  ∑ i, ∑ j, (G i j).getD 0

/-- `nx.to_numpy_array(G, nodelist=range(n))`: adjacency matrix with 0 for
missing edges. -/
def toMatrix {n : ℕ} (G : WGraph n) : Matrix (Fin n) (Fin n) ℚ :=
  fun i j => (G i j).getD 0

/-- `list(zip(cycle, cycle[1:] + [cycle[0]]))` (optimize.py:46). -/
def cycleEdges {n : ℕ} (c : List (Fin n)) : List (Fin n × Fin n) :=
  c.zip (c.drop 1 ++ c.take 1)

/-- `min(weights)` over a Python list; the source only evaluates it on a
nonempty list (guarded by `if valid_cycle and weights`). -/
def listMin : List ℚ → ℚ
  | [] => 0
  | w :: ws => ws.foldl min w

/-- The body of the per-edge mutation in the cancellation loop
(optimize.py:61-64): `G[u][v]["weight"] -= min_val`, then
`if G[u][v]["weight"] <= 1e-5: G.remove_edge(u, v)`. -/
def subEdge (w : Option ℚ) (m : ℚ) : Option ℚ :=
  match w with
  | none => none
  | some x => if x - m ≤ NET_EPS then none else some (x - m)

/-- Apply `subEdge` with margin `m` to the single edge `e` of the graph. -/
def subEdgeAt {n : ℕ} (m : ℚ) (g : WGraph n) (e : Fin n × Fin n) : WGraph n :=
  fun i j => if i = e.1 ∧ j = e.2 then subEdge (g i j) m else g i j

/-- One iteration of `for cycle in cycles` (optimize.py:45-64): if the edge
list is empty, `continue`; collect the weights, marking the cycle invalid as
soon as an edge is missing; when the cycle is intact and has weights, subtract
the minimum weight from every edge of the cycle and prune near-zero edges. -/
def applyCycle {n : ℕ} (G : WGraph n) (c : List (Fin n)) : WGraph n :=
  let edges := cycleEdges c
  if edges.isEmpty then G
  else if edges.all (fun e => (G e.1 e.2).isSome) then
    let weights := edges.filterMap (fun e => G e.1 e.2)
    let min_val := listMin weights
    edges.foldl (subEdgeAt min_val) G
  else G

/-- Stable insertion into a list sorted descending by `key`: an element is
placed before the first strictly-smaller key, after equal keys.  Together with
`sortByDesc` this models Python's stable `list.sort(key=..., reverse=True)`
(optimize.py:41-43). -/
def insertDesc {α : Type} (key : α → ℚ) (x : α) : List α → List α
  | [] => [x]
  | y :: ys => if key y ≤ key x then x :: y :: ys else y :: insertDesc key x ys

/-- Stable descending sort by `key` (insertion sort — any stable sort models
Python's `list.sort(key=..., reverse=True)`). -/
def sortByDesc {α : Type} (key : α → ℚ) (l : List α) : List α :=
  l.foldr (insertDesc key) []

/-- All subsequences of a list (helper for the brute-force cycle
enumeration). -/
def subseqs {α : Type} : List α → List (List α)
  | [] => [[]]
  | a :: l => subseqs l ++ (subseqs l).map (fun s => a :: s)

/-- All ways of inserting `a` into a list (helper for `perms`). -/
def insertEverywhere {α : Type} (a : α) : List α → List (List α)
  | [] => [[a]]
  | b :: l => (a :: b :: l) :: (insertEverywhere a l).map (fun s => b :: s)

/-- All permutations of a list (helper for the brute-force cycle
enumeration). -/
def perms {α : Type} : List α → List (List α)
  | [] => [[]]
  | a :: l => (perms l).flatMap (insertEverywhere a)

/-- `list(nx.simple_cycles(G))` (optimize.py:39) for the graph of `M`: every
elementary cycle — a nonempty duplicate-free node sequence whose consecutive
edges (wrapping around) all exist — listed once, in the rotation whose head is
the smallest node.  networkx's Johnson-style enumeration is modelled by brute
force over permutations of node subsets; the resulting cycle SET is the same,
only the list order may differ, and every claim proved below is insensitive
to that order (the invariant claims hold for any cycle list, and the concrete
scenario has a single cycle). -/
def simpleCycles {n : ℕ} (M : Matrix (Fin n) (Fin n) ℚ) : List (List (Fin n)) :=
  ((subseqs (List.finRange n)).flatMap perms).filter
    (fun c =>
      !c.isEmpty &&
      (match c.head? with
       | some h => decide (∀ x ∈ c, h ≤ x)
       | none => false) &&
      (cycleEdges c).all (fun e => (graphOf M e.1 e.2).isSome))

/-- `OptimizationNode.minimize_payload` (optimize.py:30-73): build the graph,
record the initial volume, enumerate all simple cycles, sort them descending
by the sum of the centrality of their nodes (stable, like Python's sort),
cancel each still-intact cycle by its bottleneck weight, and return the
rebuilt matrix together with `(initial_volume, final_volume)`. -/
def minimize_payload {n : ℕ} (predicted_trades : Matrix (Fin n) (Fin n) ℚ)
    (centrality_scores : Fin n → ℚ) :
    Matrix (Fin n) (Fin n) ℚ × ℚ × ℚ :=
  let G := graphOf predicted_trades
  let initial_volume := gSize G
  let cycles := sortByDesc (fun c => (c.map centrality_scores).sum)
    (simpleCycles predicted_trades)
  let Gf := cycles.foldl applyCycle G
  (toMatrix Gf, initial_volume, gSize Gf)

/- ------------------------------------------------------------------ -/
/- backend/core/backtest.py : BacktestEngine                           -/
/- ------------------------------------------------------------------ -/

/-- Integer Newton iteration for the floor square root (fuel-based so that
the kernel can evaluate it). -/
def isqrtNewton (n : ℕ) : ℕ → ℕ → ℕ
  | 0, x => x
  | fuel + 1, x =>
    let y := (x + n / x) / 2
    if y < x then isqrtNewton n fuel y else x

/-- Floor square root of a natural number (Newton's method). -/
def natSqrt (n : ℕ) : ℕ :=
  if n ≤ 1 then n else isqrtNewton n n (n / 2 + 1)

/-- Fixed-precision model of float square root (used by `np.sqrt` and
`np.corrcoef`): the square root of a nonnegative rational computed to 6
decimal digits.  Exact `sqrt` is irrational; floats are approximations
anyway, and no claim below depends on the numerical value this returns. -/
def qSqrt (x : ℚ) : ℚ :=
  if x ≤ 0 then 0
  else (natSqrt (x.num.toNat * 1000000000000 / x.den) : ℚ) / 1000000

/-- `np.sign` on a rational. -/
def qSign (x : ℚ) : ℚ :=
  if x < 0 then -1 else if x = 0 then 0 else 1

/-- Python's `round(x, k)` modelled as exact rational rounding to `k` decimal
digits (the half-to-even detail of float rounding is not modelled; no claim
depends on it). -/
def roundTo (k : ℕ) (x : ℚ) : ℚ :=
  ((round (x * 10 ^ k) : ℤ) : ℚ) / 10 ^ k

/-- The metrics dict produced by `BacktestEngine._compute_metrics`
(backtest.py:82-114); all three fields are `None` when the ticker sets are
disjoint. -/
structure MetricsData where
  mae : Option ℚ
  directional_accuracy : Option ℚ
  correlation : Option ℚ
deriving DecidableEq

/-- One entry of `BacktestEngine.history` (the dict built in
`store_prediction`, backtest.py:57-63).  Python dicts keyed by ticker are
modelled as association lists with distinct keys. -/
structure BacktestEntry where
  timestamp : String
  horizon : ℕ
  predictions : List (String × ℚ)
  actual : Option (List (String × ℚ))
  metrics : Option MetricsData
deriving DecidableEq

/-- `set(predictions.keys()) & set(actuals.keys())`, iterated in
`predictions` order (a Python set's iteration order is arbitrary; every
aggregate computed from it is order-independent). -/
def commonTickers (p a : List (String × ℚ)) : List String :=
  (p.map Prod.fst).filter (fun t => (a.map Prod.fst).contains t)

/-- `BacktestEngine._compute_metrics` (backtest.py:82-114): mean absolute
error, directional accuracy (`np.sign` agreement rate) and Pearson
correlation (0 when either sample standard deviation is 0) over the common
tickers, rounded to 6/4/4 digits. -/
def computeMetrics (p a : List (String × ℚ)) : MetricsData :=
  let common := commonTickers p a
  if common.isEmpty then ⟨none, none, none⟩
  else
    let pv := common.map (fun t => ((p.lookup t).getD 0))
    let av := common.map (fun t => ((a.lookup t).getD 0))
    let m : ℚ := common.length
    let mae := (List.zipWith (fun x y => |x - y|) pv av).sum / m
    let dirAcc :=
      (List.zipWith (fun x y => if qSign x = qSign y then (1 : ℚ) else 0) pv av).sum / m
    let pmean := pv.sum / m
    let amean := av.sum / m
    let pvar := (pv.map (fun x => (x - pmean) ^ 2)).sum / m
    let avar := (av.map (fun x => (x - amean) ^ 2)).sum / m
    let corr :=
      if 0 < pvar ∧ 0 < avar then
        ((List.zipWith (fun x y => (x - pmean) * (y - amean)) pv av).sum / m)
          / (qSqrt pvar * qSqrt avar)
      else 0
    ⟨some (roundTo 6 mae), some (roundTo 4 dirAcc), some (roundTo 4 corr)⟩

/-- `BacktestEngine.update_actuals` (backtest.py:67-80): walk `history` in
order, fill in the first entry whose `actual` is `None` with the given
actuals plus computed metrics, and `break`.  The `target_date` argument is
accepted but never read by the body.  (`_save_history` is file I/O and is not
modelled.) -/
def update_actuals (target_date : String) (actuals : List (String × ℚ)) :
    List BacktestEntry → List BacktestEntry
  | [] => []
  | e :: rest =>
    if e.actual.isNone then
      { e with
        actual := some actuals
        metrics := some (computeMetrics e.predictions actuals) } :: rest
    else
      e :: update_actuals target_date actuals rest

/- ------------------------------------------------------------------ -/
/- backend/api/ticker.py + backend/data/constants.py : the Scheduler   -/
/- ------------------------------------------------------------------ -/

/-- constants.py:13. -/
def DATA_REFRESH_INTERVAL : ℤ := 60

/-- constants.py:14. -/
def FORECAST_RECOMPUTE_INTERVAL : ℤ := 60

/-- constants.py:15: pause ticking after N consecutive failures. -/
def MAX_TICK_ERRORS : ℕ := 5

/-- The module-level mutable tick state of ticker.py:12-17 plus the two local
countdown variables of `ticker_task` (ticker.py:62-63).  `F` is the opaque
forecast-result dict. -/
structure TickState (F : Type) where
  tick_count : ℕ
  last_data_refresh : String
  last_forecast_time : String
  tick_errors : ℕ
  cached_forecast : Option F
  data_countdown : ℤ
  forecast_countdown : ℤ
deriving DecidableEq

/-- `refresh_data_sync` (ticker.py:37-42): run the injected refresh function
(whose outcome — normal return or exception — is the `res` argument) and
stamp `last_data_refresh`.  An exception propagates before the stamp. -/
def refresh_data_sync {F E : Type} (s : TickState F) (now : String)
    (res : Except E Unit) : Except E (TickState F) :=
  match res with
  | .error e => .error e
  | .ok _ => .ok { s with last_data_refresh := now }

/-- `recompute_forecast_sync` (ticker.py:45-50): run the injected recompute
function and, only on normal return, assign the complete result dict to
`cached_forecast` in one reference assignment, then stamp
`last_forecast_time`.  An exception propagates before any assignment. -/
def recompute_forecast_sync {F E : Type} (s : TickState F) (now : String)
    (res : Except E F) : Except E (TickState F) :=
  match res with
  | .error e => .error e
  | .ok f => .ok { s with cached_forecast := some f, last_forecast_time := now }

/-- The `except Exception` arm of `ticker_task` (ticker.py:94-104): bump the
consecutive-error counter; at `MAX_TICK_ERRORS` sleep the 5-minute cooldown
and reset the counter, otherwise sleep the 10-second backoff.  The returned
number is the back-off sleep issued (in seconds). -/
def handle_tick_error {F : Type} (s : TickState F) : TickState F × Option ℕ :=
  let e := s.tick_errors + 1
  if MAX_TICK_ERRORS ≤ e then ({ s with tick_errors := 0 }, some 300)
  else ({ s with tick_errors := e }, some 10)

/-- One iteration of the `while tick_running` loop of `ticker_task`
(ticker.py:65-104), after the 1-second heartbeat sleep: decrement both
countdowns; when the data countdown has run out, refresh (resetting the data
countdown, forcing the forecast countdown to 0 and bumping `tick_count`);
when the forecast countdown has run out, recompute (resetting the forecast
countdown); a clean pass resets `tick_errors` to 0, an exception anywhere in
the body falls to `handle_tick_error` with all state mutations made so far
kept.  The second component is the error back-off sleep, `none` on a clean
pass. -/
def tickStep {F E : Type} (s : TickState F) (now : String)
    (refreshRes : Except E Unit) (recomputeRes : Except E F) :
    TickState F × Option ℕ :=
  let s1 := { s with
    data_countdown := s.data_countdown - 1
    forecast_countdown := s.forecast_countdown - 1 }
  match (if s1.data_countdown ≤ 0 then
           (refresh_data_sync s1 now refreshRes).map (fun s' =>
             { s' with
               data_countdown := DATA_REFRESH_INTERVAL
               forecast_countdown := 0
               tick_count := s'.tick_count + 1 })
         else .ok s1) with
  | .error _ => handle_tick_error s1
  | .ok s2 =>
    match (if s2.forecast_countdown ≤ 0 then
             (recompute_forecast_sync s2 now recomputeRes).map (fun s' =>
               { s' with forecast_countdown := FORECAST_RECOMPUTE_INTERVAL })
           else .ok s2) with
    | .error _ => handle_tick_error s2
    | .ok s3 => ({ s3 with tick_errors := 0 }, none)

/-- One tick iteration in which the work fails (the data refresh, when due,
succeeds and the forecast recompute raises): the state evolution used to
describe `MAX_TICK_ERRORS` consecutive failed ticks. -/
def failStep {F E : Type} (now : String) (e : E) (s : TickState F) :
    TickState F :=
  (tickStep s now (Except.ok ()) (Except.error e)).1

/- ------------------------------------------------------------------ -/
/- backend/data/loader.py : TimeSeriesLoader.build_time_series_risk_factor -/
/- ------------------------------------------------------------------ -/

/-- constants.py:28. -/
def RISK_FACTOR_WINDOW_DAYS : ℕ := 20

/-- constants.py:29. -/
def RISK_EWMA_LAMBDA : ℚ := 0.94

/-- constants.py:30. -/
def RISK_DOWNSIDE_WEIGHT : ℚ := 0.50

/-- `self.bank_returns.iloc[-window_days:]`: the last `w` rows. -/
def lastWindow {α : Type} (w : ℕ) (rows : List α) : List α :=
  rows.drop (rows.length - w)

/-- `np.max` over a vector as a list; the source only applies it to nonempty
vectors. -/
def npMaxQ : List ℚ → ℚ
  | [] => 0
  | x :: xs => xs.foldl max x

/-- `np.max(x)` over a length-`n` vector. -/
def vecMax {n : ℕ} (x : Fin n → ℚ) : ℚ :=
  npMaxQ (List.ofFn x)

/-- `np.min` over a vector as a list (used only by the spec-side min-max
definition below). -/
def npMinQ : List ℚ → ℚ
  | [] => 0
  | x :: xs => xs.foldl min x

/-- `np.min(x)` over a length-`n` vector. -/
def vecMin {n : ℕ} (x : Fin n → ℚ) : ℚ :=
  npMinQ (List.ofFn x)

/-- `_norm01` (loader.py:229-234): divide the vector by its maximum and clip
into `[0,1]`; when the maximum is non-finite or ≤ 1e-12 return the zero
vector (`np.isfinite` never fails on exact rationals). -/
def norm01 {n : ℕ} (x : Fin n → ℚ) : Fin n → ℚ :=
  let denom := vecMax x
  if denom ≤ 1e-12 then fun _ => 0
  else fun i => min (max (x i / denom) 0) 1

/-- The EWMA-volatility vector of `build_time_series_risk_factor`
(loader.py:219-224): RiskMetrics-style exponential weights normalized by
`w.sum() + 1e-12`, applied to squared returns, square-rooted.  `r` is the
already-windowed return matrix (a list of `T` rows). -/
def ewmaVolVec {n : ℕ} (ewma_lambda : ℚ) (r : List (Fin n → ℚ)) : Fin n → ℚ :=
  let T := r.length
  let lam := min (max ewma_lambda 0) 0.9999
  let w : List ℚ := (List.range T).map (fun t => (1 - lam) * lam ^ (T - 1 - t))
  let wn : List ℚ := w.map (fun x => x / (w.sum + 1e-12))
  fun i => qSqrt (max (List.zipWith (fun wt row => wt * row i ^ 2) wn r).sum 0)

/-- The downside-magnitude vector of `build_time_series_risk_factor`
(loader.py:227): `np.maximum(-r, 0.0).mean(axis=0)`. -/
def downsideVec {n : ℕ} (r : List (Fin n → ℚ)) : Fin n → ℚ :=
  fun i => (r.map (fun row => max (-row i) 0)).sum / r.length

/-- `TimeSeriesLoader.build_time_series_risk_factor` (loader.py:194-241) on
loaded data: slice the last `window_days` rows; with fewer than 2 rows return
the zero vector; otherwise blend the `_norm01`-normalized EWMA-volatility and
downside vectors with the downside weight clipped into `[0,1]`.  (The
`bank_returns is None or len == 0` branch returns random numbers and is not
modelled; the claims quantify over loaded series with at least 2 rows.) -/
def build_time_series_risk_factor {n : ℕ} (window_days : ℕ)
    (ewma_lambda downside_weight : ℚ) (rows : List (Fin n → ℚ)) : Fin n → ℚ :=
  let r := lastWindow window_days rows
  if r.length < 2 then fun _ => 0
  else
    let vol_n := norm01 (ewmaVolVec ewma_lambda r)
    let down_n := norm01 (downsideVec r)
    let a := min (max downside_weight 0) 1
    fun i => (1 - a) * vol_n i + a * down_n i

/-- Modelled from the spec's words, for comparison with the source: the same
risk-factor pipeline but with each component vector "min-max normalized into
[0,1]" in the standard sense `(x - min) / (max - min)` instead of the
source's division by the maximum. -/
def minMaxNorm {n : ℕ} (x : Fin n → ℚ) : Fin n → ℚ :=
  fun i => (x i - vecMin x) / (vecMax x - vecMin x)

/-- Modelled from the spec's words: `build_time_series_risk_factor` as the
spec sentence describes it, with true min-max normalization. -/
def risk_factor_minmax {n : ℕ} (window_days : ℕ)
    (ewma_lambda downside_weight : ℚ) (rows : List (Fin n → ℚ)) : Fin n → ℚ :=
  let r := lastWindow window_days rows
  if r.length < 2 then fun _ => 0
  else
    let vol_n := minMaxNorm (ewmaVolVec ewma_lambda r)
    let down_n := minMaxNorm (downsideVec r)
    let a := min (max downside_weight 0) 1
    fun i => (1 - a) * vol_n i + a * down_n i

/- ------------------------------------------------------------------ -/
/- Concrete data of the end-to-end netting scenario (spec §8)          -/
/- ------------------------------------------------------------------ -/

/-- The 3-node obligation matrix A→B=10, B→C=5, C→A=10 of the end-to-end
scenario (nodes A,B,C = 0,1,2). -/
def scenarioObligations : Matrix (Fin 3) (Fin 3) ℚ :=
  !![0, 10, 0; 0, 0, 5; 10, 0, 0]

/-- The netted matrix the scenario expects: A→B=5 and C→A=5 survive, B→C is
removed. -/
def scenarioNetted : Matrix (Fin 3) (Fin 3) ℚ :=
  !![0, 5, 0; 0, 0, 0; 5, 0, 0]

/- ------------------------------------------------------------------ -/
/- backend/core/optimize.py : OptimizationNode.get_systemic_hubs       -/
/- ------------------------------------------------------------------ -/

/-- `np.max` over a list of reals; the source only applies it to the nonempty
eigenvalue-magnitude vector. -/
noncomputable def npMaxR : List ℝ → ℝ
  | [] => 0
  | x :: xs => xs.foldl max x

/-- `np.argmax` over a list of reals: the first index attaining the maximum
(0 on the empty array, which the source never passes). -/
noncomputable def argmaxIdx : List ℝ → ℕ
  | [] => 0
  | x :: xs => if npMaxR (x :: xs) ≤ x then 0 else argmaxIdx xs + 1

/-- `OptimizationNode.get_systemic_hubs` (optimize.py:16-28), parameterized by
the eigen-decomposition `np.linalg.eig(risk_matrix)` returns (eigenvalue list
and the matching list of eigenvector columns; LAPACK's output order is a
deterministic function of the input matrix):
`idx = np.argmax(np.abs(eigenvalues))`;
`centrality = np.abs(eigenvectors[:, idx])`;
`stability_limit = np.max(np.abs(eigenvalues))`. -/
noncomputable def get_systemic_hubs {n : ℕ} (eigenvalues : List ℂ)
    (eigenvectors : List (Fin n → ℂ)) : (Fin n → ℝ) × ℝ :=
  let mags := eigenvalues.map Complex.abs
  let idx := argmaxIdx mags
  let centrality : Fin n → ℝ :=
    fun i => Complex.abs (eigenvectors.getD idx (fun _ => 0) i)
  let stability_limit := npMaxR mags
  (centrality, stability_limit)

/-- Modelled from the spec's words: the spectral radius of a real matrix —
the supremum of the magnitudes of its (complex) eigenvalues, i.e. of the
roots of its characteristic polynomial. -/
noncomputable def specRadius {n : ℕ} (R : Matrix (Fin n) (Fin n) ℝ) : ℝ :=
  sSup (Set.image Complex.abs
    { μ : ℂ | (R.map (fun x => (x : ℂ)) - μ • 1).det = 0 })

/- ------------------------------------------------------------------ -/
/- backend/core/forecast_engine.py : ForecastEngine._risk_jacobian     -/
/- ------------------------------------------------------------------ -/

/-- `torch.sigmoid`. -/
noncomputable def sigmoid (x : ℝ) : ℝ := 1 / (1 + Real.exp (-x))

/-- The inner `flow_score` closure of `_risk_jacobian`
(forecast_engine.py:209-214):
`inflow = torch.sum(O_input.T, dim=1)`; `outflow = torch.sum(O_input, dim=1)`;
`net = (liquidity + inflow) - outflow`; `scale = outflow.clamp(min=1.0)`;
`torch.sigmoid(-net / scale)`. -/
noncomputable def flow_score {n : ℕ} (liquidity : Fin n → ℝ)
    (O : Matrix (Fin n) (Fin n) ℝ) : Fin n → ℝ :=
  let inflow : Fin n → ℝ := fun i => ∑ k, O.transpose i k
  let outflow : Fin n → ℝ := fun i => ∑ j, O i j
  let net : Fin n → ℝ := fun i => liquidity i + inflow i - outflow i
  let scale : Fin n → ℝ := fun i => max (outflow i) 1
  fun i => sigmoid (-net i / scale i)

/-- Replace the single entry `(j, k)` of a matrix. -/
def updEntry {n : ℕ} (O : Matrix (Fin n) (Fin n) ℝ) (j k : Fin n) (t : ℝ) :
    Matrix (Fin n) (Fin n) ℝ :=
  fun a b => if a = j ∧ b = k then t else O a b

/-- One entry `J[i][j][k] = ∂ flow_score_i / ∂ O[j][k]` of
`torch.autograd.functional.jacobian(flow_score, pred_O)`
(forecast_engine.py:216).  Autograd's exact partial derivative is modelled by
Mathlib's (total) `deriv` along the `(j,k)` coordinate. -/
noncomputable def jacobianEntry {n : ℕ} (liquidity : Fin n → ℝ)
    (O : Matrix (Fin n) (Fin n) ℝ) (i j k : Fin n) : ℝ :=
  deriv (fun t => flow_score liquidity (updEntry O j k t) i) (O j k)

/-- `ForecastEngine._risk_jacobian` (forecast_engine.py:202-217):
`J.sum(dim=2)`, i.e. `R[i][j] = Σ_k J[i][j][k]`. -/
noncomputable def risk_jacobian {n : ℕ} (pred_O : Matrix (Fin n) (Fin n) ℝ)
    (liquidity : Fin n → ℝ) : Matrix (Fin n) (Fin n) ℝ :=
  fun i j => ∑ k, jacobianEntry liquidity pred_O i j k

/-- Modelled from the spec's words: `inflow_i = Σ_k O[k][i]`. -/
noncomputable def inflowSpec {n : ℕ} (O : Matrix (Fin n) (Fin n) ℝ)
    (i : Fin n) : ℝ := ∑ k, O k i

/-- Modelled from the spec's words: `outflow_i = Σ_j O[i][j]`. -/
noncomputable def outflowSpec {n : ℕ} (O : Matrix (Fin n) (Fin n) ℝ)
    (i : Fin n) : ℝ := ∑ j, O i j

/-- Modelled from the spec's words:
`net_i = liquidity_i + inflow_i − outflow_i`. -/
noncomputable def netSpec {n : ℕ} (liquidity : Fin n → ℝ)
    (O : Matrix (Fin n) (Fin n) ℝ) (i : Fin n) : ℝ :=
  liquidity i + inflowSpec O i - outflowSpec O i

/-- Modelled from the spec's words: `scale_i = max(outflow_i, 1.0)`. -/
noncomputable def scaleSpec {n : ℕ} (O : Matrix (Fin n) (Fin n) ℝ)
    (i : Fin n) : ℝ := max (outflowSpec O i) 1

/-- Modelled from the spec's words: `stress_i = sigmoid(-net_i / scale_i)`. -/
noncomputable def stressSpec {n : ℕ} (liquidity : Fin n → ℝ)
    (O : Matrix (Fin n) (Fin n) ℝ) (i : Fin n) : ℝ :=
  sigmoid (-netSpec liquidity O i / scaleSpec O i)

/- ------------------------------------------------------------------ -/
/- Concrete sample data used by witnesses                              -/
/- ------------------------------------------------------------------ -/

/-- A concrete enabled stability-threshold rule. -/
def sampleAlert : Alert :=
  ⟨"id-1", "stability_threshold", "High Instability Warning", "", 1, true⟩

/-- A concrete snapshot with both scalar fields present. -/
def sampleSnapshot : ForecastData := ⟨some 1.5, some 10⟩

/-- A history entry whose actuals have already been recorded. -/
def sampleEntryDone : BacktestEntry :=
  ⟨"t0", 1, [("JPM", 1)], some [("JPM", 2)], none⟩

/-- A history entry still waiting for actuals. -/
def sampleEntryPending : BacktestEntry :=
  ⟨"t1", 2, [("JPM", 1/2)], none, none⟩

/- ================================================================== -/
/- Theorems                                                            -/
/- ================================================================== -/

/-- C2: for every stress vector `s` and base matrix `B` with non-negative
entries and zero diagonal, `_build_obligations` returns exactly
`O[i][j] = max(0, B[i][j] * (1 + clamp(100*s[i], -0.9, 2.0)))` with the
diagonal forced to 0; in particular the output has zero diagonal and all
entries ≥ 0. -/
theorem obligation_builder_spec {n : ℕ} (s : Fin n → ℚ)
    (B : Matrix (Fin n) (Fin n) ℚ)
    (_hB : ∀ i j, 0 ≤ B i j) (_hdiag : ∀ i, B i i = 0) :
    (∀ i j, i ≠ j →
      build_obligations s B i j
        = max 0 (B i j * (1 + min (max (100 * s i) (-0.9)) 2.0)))
    ∧ (∀ i, build_obligations s B i i = 0)
    ∧ (∀ i j, 0 ≤ build_obligations s B i j) := by
  refine ⟨fun i j hij => ?_, fun i => ?_, fun i j => ?_⟩
  · simp only [build_obligations, if_neg hij]
    rw [max_comm, mul_comm 100 (s i)]
  · simp [build_obligations]
  · simp only [build_obligations]
    split
    · exact le_refl 0
    · exact le_max_right _ 0

/-- Witness for C2 at a concrete stress vector and base matrix. -/
theorem obligation_builder_spec_witness :
    (∀ i j, 0 ≤ (!![0, 2; 3, 0] : Matrix (Fin 2) (Fin 2) ℚ) i j)
    ∧ (∀ i : Fin 2, (!![0, 2; 3, 0] : Matrix (Fin 2) (Fin 2) ℚ) i i = 0)
    ∧ ((∀ i j, i ≠ j →
        build_obligations ![1, -1] !![0, 2; 3, 0] i j
          = max 0 ((!![0, 2; 3, 0] : Matrix (Fin 2) (Fin 2) ℚ) i j
              * (1 + min (max (100 * (![1, -1] : Fin 2 → ℚ) i) (-0.9)) 2.0)))
      ∧ (∀ i, build_obligations ![1, -1] !![0, 2; 3, 0] i i = 0)
      ∧ (∀ i j, 0 ≤ build_obligations ![1, -1] !![0, 2; 3, 0] i j)) :=
  ⟨by decide, by decide,
    obligation_builder_spec ![1, -1] !![0, 2; 3, 0] (by decide) (by decide)⟩

/-- C5: on the 3-node cycle A→B=10, B→C=5, C→A=10 and for any centrality
vector, `minimize_payload` returns exactly the surviving edges A→B=5 and
C→A=5 with B→C removed, `raw_load = 25` and `net_load = 10`. -/
theorem netting_cycle_scenario :
    ∀ cvec : Fin 3 → ℚ,
      minimize_payload scenarioObligations cvec = (scenarioNetted, 25, 10) := by
  intro cvec
  have h : simpleCycles scenarioObligations = [[0, 1, 2]] := by decide
  simp only [minimize_payload, h]
  have h2 : sortByDesc (fun c => (c.map cvec).sum) [[(0 : Fin 3), 1, 2]]
      = [[0, 1, 2]] := rfl
  rw [h2]
  decide

/-- Membership in the triggered list returned by `check_alerts`, unfolded. -/
theorem mem_check_alerts (alerts : List Alert) (d : ForecastData)
    (b : Alert) (v : Option ℚ) :
    (b, v) ∈ check_alerts alerts d ↔
      b ∈ alerts ∧ (b.enabled && alertFires d b) = true ∧ v = currentValue d := by
  simp only [check_alerts, List.mem_map, List.mem_filter, Prod.mk.injEq]
  constructor
  · rintro ⟨c, ⟨hc, hpc⟩, rfl, rfl⟩
    exact ⟨hc, hpc, rfl⟩
  · rintro ⟨hb, hpb, rfl⟩
    exact ⟨b, ⟨hb, hpb⟩, rfl, rfl⟩

/-- C9: for every rule set and every snapshot whose scalar fields are
present, `check_alerts` fires an enabled `stability_threshold` rule exactly
when `stability ≥ threshold` and an enabled `payload_change` rule exactly
when `payload_reduction < threshold`; a `hub_shift` rule never fires (its
branch is a bare `pass`, so it raises nothing either); a disabled rule never
fires. -/
theorem alert_evaluation (alerts : List Alert) (d : ForecastData) (a : Alert)
    (sv pv : ℚ) (hs : d.stability = some sv)
    (hp : d.payload_reduction = some pv) :
    ((∃ v, (a, v) ∈ check_alerts alerts d) ↔
        a ∈ alerts ∧ a.enabled = true ∧
          ((a.type = ALERT_STABILITY_THRESHOLD ∧ a.threshold ≤ sv)
            ∨ (a.type = ALERT_PAYLOAD_CHANGE ∧ pv < a.threshold)))
    ∧ (a.type = ALERT_HUB_SHIFT → ∀ v, (a, v) ∉ check_alerts alerts d)
    ∧ (a.enabled = false → ∀ v, (a, v) ∉ check_alerts alerts d) := by
  have hfire : alertFires d a = true ↔
      ((a.type = ALERT_STABILITY_THRESHOLD ∧ a.threshold ≤ sv)
        ∨ (a.type = ALERT_PAYLOAD_CHANGE ∧ pv < a.threshold)) := by
    have hne12 : ¬ (ALERT_STABILITY_THRESHOLD = ALERT_PAYLOAD_CHANGE) := by decide
    have hne21 : ¬ (ALERT_PAYLOAD_CHANGE = ALERT_STABILITY_THRESHOLD) := by decide
    simp only [alertFires, hs, hp, Option.getD_some]
    by_cases h1 : a.type = ALERT_STABILITY_THRESHOLD
    · have h2 : ¬ a.type = ALERT_PAYLOAD_CHANGE := by
        rw [h1]; exact hne12
      simp [h1, h2, hne12]
    · by_cases h2 : a.type = ALERT_PAYLOAD_CHANGE
      · simp [h1, h2, hne21]
      · simp [h1, h2]
  refine ⟨?_, ?_, ?_⟩
  · constructor
    · rintro ⟨v, hv⟩
      rcases (mem_check_alerts alerts d a v).1 hv with ⟨ha, hab, -⟩
      rcases Bool.and_eq_true_iff.1 hab with ⟨he, hf⟩
      exact ⟨ha, he, hfire.1 hf⟩
    · rintro ⟨ha, he, hcond⟩
      refine ⟨currentValue d, (mem_check_alerts alerts d a _).2 ⟨ha, ?_, rfl⟩⟩
      exact Bool.and_eq_true_iff.2 ⟨he, hfire.2 hcond⟩
  · intro hhub v hv
    rcases (mem_check_alerts alerts d a v).1 hv with ⟨-, hab, -⟩
    rcases Bool.and_eq_true_iff.1 hab with ⟨-, hf⟩
    have h1 : ¬ a.type = ALERT_STABILITY_THRESHOLD := by rw [hhub]; decide
    have h2 : ¬ a.type = ALERT_PAYLOAD_CHANGE := by rw [hhub]; decide
    simp [alertFires, h1, h2] at hf
  · intro hdis v hv
    rcases (mem_check_alerts alerts d a v).1 hv with ⟨-, hab, -⟩
    rcases Bool.and_eq_true_iff.1 hab with ⟨he, -⟩
    rw [hdis] at he
    exact Bool.false_ne_true he

/-- Witness for C9: a one-rule set and a concrete snapshot with
stability 1.5 and payload reduction 10%. -/
theorem alert_evaluation_witness :
    sampleSnapshot.stability = some 1.5
    ∧ sampleSnapshot.payload_reduction = some 10
    ∧ (((∃ v, (sampleAlert, v) ∈ check_alerts [sampleAlert] sampleSnapshot) ↔
          sampleAlert ∈ [sampleAlert] ∧ sampleAlert.enabled = true ∧
            ((sampleAlert.type = ALERT_STABILITY_THRESHOLD
                ∧ sampleAlert.threshold ≤ 1.5)
              ∨ (sampleAlert.type = ALERT_PAYLOAD_CHANGE
                ∧ 10 < sampleAlert.threshold)))
        ∧ (sampleAlert.type = ALERT_HUB_SHIFT →
            ∀ v, (sampleAlert, v) ∉ check_alerts [sampleAlert] sampleSnapshot)
        ∧ (sampleAlert.enabled = false →
            ∀ v, (sampleAlert, v) ∉ check_alerts [sampleAlert] sampleSnapshot)) :=
  ⟨rfl, rfl,
    alert_evaluation [sampleAlert] sampleSnapshot sampleAlert 1.5 10 rfl rfl⟩

/-- C10: `update_actuals` never reads its `target_date` argument; it fills in
the first (oldest) history entry whose `actual` field is still `None`,
leaves every other entry untouched (in particular any entry whose actuals are
already set), and mutates at most that one entry. -/
theorem update_actuals_ignores_date (d d' : String)
    (a : List (String × ℚ)) (h : List BacktestEntry) :
    update_actuals d a h = update_actuals d' a h
    ∧ (update_actuals d a h).length = h.length
    ∧ (∀ i : ℕ, i ≠ h.findIdx (fun e => e.actual.isNone) →
        (update_actuals d a h)[i]? = h[i]?)
    ∧ (∀ (i : ℕ) (e : BacktestEntry), h[i]? = some e → e.actual ≠ none →
        (update_actuals d a h)[i]? = some e)
    ∧ (∀ e : BacktestEntry,
        h[h.findIdx (fun e => e.actual.isNone)]? = some e →
        (update_actuals d a h)[h.findIdx (fun e => e.actual.isNone)]? =
          some { e with
            actual := some a
            metrics := some (computeMetrics e.predictions a) }) := by
  induction h with
  | nil =>
    refine ⟨rfl, rfl, fun i _ => rfl, fun i e hi => ?_, fun e he => ?_⟩
    · simp at hi
    · simp at he
  | cons e rest ih =>
    by_cases he : e.actual.isNone
    · have hfi : (e :: rest).findIdx (fun x => x.actual.isNone) = 0 := by
        simp [List.findIdx_cons, he]
      refine ⟨?_, ?_, ?_, ?_, ?_⟩
      · simp [update_actuals, he]
      · simp [update_actuals, he]
      · intro i hi
        rw [hfi] at hi
        cases i with
        | zero => exact absurd rfl hi
        | succ m => simp [update_actuals, he]
      · intro i e' hi hact
        cases i with
        | zero =>
          simp only [List.getElem?_cons_zero, Option.some.injEq] at hi
          rw [← hi] at hact
          rw [Option.isNone_iff_eq_none] at he
          exact absurd he hact
        | succ m =>
          simp only [List.getElem?_cons_succ] at hi
          simp [update_actuals, he, hi]
      · intro e' he'
        rw [hfi] at he' ⊢
        simp only [List.getElem?_cons_zero, Option.some.injEq] at he'
        simp [update_actuals, he, ← he']
    · have hfi : (e :: rest).findIdx (fun x => x.actual.isNone)
          = rest.findIdx (fun x => x.actual.isNone) + 1 := by
        simp [List.findIdx_cons, he]
      have hupd : ∀ dd, update_actuals dd a (e :: rest)
          = e :: update_actuals dd a rest := by
        intro dd
        simp [update_actuals, he]
      refine ⟨?_, ?_, ?_, ?_, ?_⟩
      · rw [hupd d, hupd d', ih.1]
      · rw [hupd d]
        simpa using ih.2.1
      · intro i hi
        rw [hfi] at hi
        rw [hupd d]
        cases i with
        | zero => simp
        | succ m =>
          have hm : m ≠ rest.findIdx (fun x => x.actual.isNone) := by
            intro hc
            exact hi (by rw [hc])
          simpa using ih.2.2.1 m hm
      · intro i e' hi hact
        rw [hupd d]
        cases i with
        | zero =>
          simp only [List.getElem?_cons_zero, Option.some.injEq] at hi
          simp [hi]
        | succ m =>
          simp only [List.getElem?_cons_succ] at hi
          simpa using ih.2.2.2.1 m e' hi hact
      · intro e' he'
        rw [hfi] at he' ⊢
        rw [hupd d]
        simp only [List.getElem?_cons_succ] at he' ⊢
        exact ih.2.2.2.2 e' he'

/-- Witness for C10: a two-entry history whose first entry already has
actuals; two different target dates give the same result and only the second
(pending) entry is filled. -/
theorem update_actuals_ignores_date_witness :
    (update_actuals "2024-01-01" [("JPM", 1)]
        [sampleEntryDone, sampleEntryPending]
      = update_actuals "1999-12-31" [("JPM", 1)]
        [sampleEntryDone, sampleEntryPending])
    ∧ (∀ i, i ≠ [sampleEntryDone, sampleEntryPending].findIdx
          (fun e => e.actual.isNone) →
        (update_actuals "2024-01-01" [("JPM", 1)]
          [sampleEntryDone, sampleEntryPending])[i]?
          = [sampleEntryDone, sampleEntryPending][i]?) :=
  ⟨(update_actuals_ignores_date "2024-01-01" "1999-12-31" [("JPM", 1)]
      [sampleEntryDone, sampleEntryPending]).1,
    (update_actuals_ignores_date "2024-01-01" "1999-12-31" [("JPM", 1)]
      [sampleEntryDone, sampleEntryPending]).2.2.1⟩

/-- The error handler never touches the cached forecast. -/
theorem handle_tick_error_cached {F : Type} (s : TickState F) :
    (handle_tick_error s).1.cached_forecast = s.cached_forecast := by
  unfold handle_tick_error
  by_cases h : MAX_TICK_ERRORS ≤ s.tick_errors + 1 <;> simp [h]

/-- Case analysis of one scheduler tick: the cache is either untouched or
holds exactly the complete freshly-computed result. -/
theorem tickStep_cached_cases {F E : Type} (s : TickState F) (now : String)
    (rr : Except E Unit) (rc : Except E F) :
    (tickStep s now rr rc).1.cached_forecast = s.cached_forecast
    ∨ ∃ f, rc = Except.ok f
        ∧ (tickStep s now rr rc).1.cached_forecast = some f := by
  unfold tickStep
  by_cases hd : s.data_countdown - 1 ≤ 0
  · cases rr with
    | error er =>
      left
      simp [hd, refresh_data_sync, Except.map, handle_tick_error_cached]
    | ok u =>
      cases rc with
      | error er' =>
        left
        simp [hd, refresh_data_sync, recompute_forecast_sync, Except.map,
          handle_tick_error_cached]
      | ok f =>
        right
        refine ⟨f, rfl, ?_⟩
        simp [hd, refresh_data_sync, recompute_forecast_sync, Except.map]
  · by_cases hf : s.forecast_countdown - 1 ≤ 0
    · cases rc with
      | error er' =>
        left
        simp [hd, hf, recompute_forecast_sync, Except.map,
          handle_tick_error_cached]
      | ok f =>
        right
        exact ⟨f, rfl,
          by simp [hd, hf, recompute_forecast_sync, Except.map]⟩
    · left
      simp [hd, hf]

/-- C6: if the forecast recompute step of a tick raises, `cached_forecast`
is left exactly as it was before the tick; in general a tick leaves the cache
either as the complete previous result or as the complete new result, never
a partial mix. -/
theorem cached_forecast_atomicity {F E : Type} (s : TickState F)
    (now : String) (rr : Except E Unit) (e : E) (rc : Except E F) :
    (tickStep s now rr (Except.error e)).1.cached_forecast
        = s.cached_forecast
    ∧ ((tickStep s now rr rc).1.cached_forecast = s.cached_forecast
        ∨ ∃ f, rc = Except.ok f
            ∧ (tickStep s now rr rc).1.cached_forecast = some f) := by
  refine ⟨?_, tickStep_cached_cases s now rr rc⟩
  rcases tickStep_cached_cases s now rr (Except.error e : Except E F) with
    h | ⟨f, hf, -⟩
  · exact h
  · exact absurd hf (by simp)

/-- Exact effect of the error handler on the counter, the emitted back-off
sleep and the forecast countdown. -/
theorem handle_tick_error_spec {F : Type} (s : TickState F) :
    ((handle_tick_error s).1.tick_errors
        = if MAX_TICK_ERRORS ≤ s.tick_errors + 1 then 0 else s.tick_errors + 1)
    ∧ ((handle_tick_error s).2
        = if MAX_TICK_ERRORS ≤ s.tick_errors + 1 then some 300 else some 10)
    ∧ (handle_tick_error s).1.forecast_countdown = s.forecast_countdown := by
  unfold handle_tick_error
  by_cases h : MAX_TICK_ERRORS ≤ s.tick_errors + 1 <;> simp [h]

/-- A tick whose recompute raises (refresh, when due, succeeding) lands in
the error handler with the counter still untouched and the forecast
countdown again ≤ 1. -/
theorem tickStep_fail {F E : Type} (s : TickState F) (now : String) (e : E)
    (hf : s.forecast_countdown ≤ 1) :
    ∃ s' : TickState F,
      tickStep s now (Except.ok ()) (Except.error e) = handle_tick_error s'
      ∧ s'.tick_errors = s.tick_errors
      ∧ s'.forecast_countdown ≤ 1 := by
  unfold tickStep
  by_cases hd : s.data_countdown - 1 ≤ 0
  · refine ⟨{ s with
      last_data_refresh := now
      data_countdown := DATA_REFRESH_INTERVAL
      forecast_countdown := 0
      tick_count := s.tick_count + 1 }, ?_, rfl, show (0:ℤ) ≤ 1 by norm_num⟩
    simp [hd, refresh_data_sync, recompute_forecast_sync, Except.map]
  · have hf2 : s.forecast_countdown - 1 ≤ 0 := by omega
    refine ⟨{ s with
      data_countdown := s.data_countdown - 1
      forecast_countdown := s.forecast_countdown - 1 }, ?_, rfl,
        show s.forecast_countdown - 1 ≤ 1 by omega⟩
    simp [hd, hf2, recompute_forecast_sync, Except.map]

/-- Counter evolution along consecutive failed ticks, below the pause
threshold. -/
theorem failStep_iterate {F E : Type} (s0 : TickState F) (now : String)
    (e : E) (hf : s0.forecast_countdown ≤ 1) (h0 : s0.tick_errors = 0) :
    ∀ k, k < MAX_TICK_ERRORS →
      ((failStep now e)^[k] s0).tick_errors = k
      ∧ ((failStep now e)^[k] s0).forecast_countdown ≤ 1 := by
  intro k
  induction k with
  | zero => exact fun _ => ⟨h0, hf⟩
  | succ m ih =>
    intro hm
    have hm' : m < MAX_TICK_ERRORS := Nat.lt_of_succ_lt hm
    obtain ⟨he, hfc⟩ := ih hm'
    rw [Function.iterate_succ_apply']
    obtain ⟨s', hstep, herr, hfc'⟩ :=
      tickStep_fail ((failStep now e)^[m] s0) now e hfc
    have hlt : ¬ MAX_TICK_ERRORS ≤ s'.tick_errors + 1 := by
      rw [herr, he]
      simp only [MAX_TICK_ERRORS] at hm ⊢
      omega
    constructor
    · rw [failStep, hstep, (handle_tick_error_spec s').1, if_neg hlt, herr, he]
    · rw [failStep, hstep, (handle_tick_error_spec s').2.2]
      exact hfc'

/-- C7: starting from a clean state, each of the first
`MAX_TICK_ERRORS - 1` consecutive failed ticks issues only the short
10-second back-off and leaves the error counter equal to the number of
failures so far; the `MAX_TICK_ERRORS`-th consecutive failure issues the
300-second pause (during which the loop attempts nothing further) and resets
the counter to 0; and any single successful tick resets the counter to 0. -/
theorem scheduler_backoff {F E : Type} (s0 : TickState F) (now : String)
    (e : E) (f : F)
    (hf : s0.forecast_countdown ≤ 1) (h0 : s0.tick_errors = 0) :
    (∀ k, k < MAX_TICK_ERRORS →
        ((failStep now e)^[k] s0).tick_errors = k)
    ∧ (∀ k, k + 1 < MAX_TICK_ERRORS →
        (tickStep ((failStep now e)^[k] s0) now
          (Except.ok ()) (Except.error e)).2 = some 10)
    ∧ (tickStep ((failStep now e)^[MAX_TICK_ERRORS - 1] s0) now
        (Except.ok ()) (Except.error e)).2 = some 300
    ∧ ((failStep now e)^[MAX_TICK_ERRORS] s0).tick_errors = 0
    ∧ (∀ s : TickState F,
        (tickStep s now (Except.ok () : Except E Unit)
          (Except.ok f : Except E F)).1.tick_errors = 0) := by
  refine ⟨fun k hk => (failStep_iterate s0 now e hf h0 k hk).1,
    fun k hk => ?_, ?_, ?_, fun s => ?_⟩
  · obtain ⟨he, hfc⟩ := failStep_iterate s0 now e hf h0 k
      (Nat.lt_of_succ_lt hk)
    obtain ⟨s', hstep, herr, -⟩ :=
      tickStep_fail ((failStep now e)^[k] s0) now e hfc
    have hlt : ¬ MAX_TICK_ERRORS ≤ s'.tick_errors + 1 := by
      rw [herr, he]
      simp only [MAX_TICK_ERRORS] at hk ⊢
      omega
    rw [hstep, (handle_tick_error_spec s').2.1, if_neg hlt]
  · obtain ⟨he, hfc⟩ := failStep_iterate s0 now e hf h0
      (MAX_TICK_ERRORS - 1) (by decide)
    obtain ⟨s', hstep, herr, -⟩ :=
      tickStep_fail ((failStep now e)^[MAX_TICK_ERRORS - 1] s0) now e hfc
    have hge : MAX_TICK_ERRORS ≤ s'.tick_errors + 1 := by
      rw [herr, he]
      decide
    rw [hstep, (handle_tick_error_spec s').2.1, if_pos hge]
  · obtain ⟨he, hfc⟩ := failStep_iterate s0 now e hf h0
      (MAX_TICK_ERRORS - 1) (by decide)
    obtain ⟨s', hstep, herr, -⟩ :=
      tickStep_fail ((failStep now e)^[MAX_TICK_ERRORS - 1] s0) now e hfc
    have hge : MAX_TICK_ERRORS ≤ s'.tick_errors + 1 := by
      rw [herr, he]
      decide
    have hIter : (failStep now e)^[MAX_TICK_ERRORS] s0
        = failStep now e ((failStep now e)^[MAX_TICK_ERRORS - 1] s0) :=
      Function.iterate_succ_apply' (failStep now e) (MAX_TICK_ERRORS - 1) s0
    rw [hIter, failStep, hstep, (handle_tick_error_spec s').1, if_pos hge]
  · unfold tickStep
    by_cases hd : s.data_countdown - 1 ≤ 0
    · simp [hd, refresh_data_sync, recompute_forecast_sync, Except.map]
    · by_cases hfc : s.forecast_countdown - 1 ≤ 0 <;>
        simp [hd, hfc, refresh_data_sync, recompute_forecast_sync, Except.map]

/-- Witness for C7 at a concrete clean state (forecast due immediately, no
prior errors); the payload instantiates every conjunct of the back-off
theorem. -/
theorem scheduler_backoff_witness :
    ((⟨0, "", "", 0, none, 60, 0⟩ : TickState Unit).forecast_countdown ≤ 1)
    ∧ ((⟨0, "", "", 0, none, 60, 0⟩ : TickState Unit).tick_errors = 0)
    ∧ ((∀ k, k < MAX_TICK_ERRORS →
          ((failStep "" ())^[k]
            (⟨0, "", "", 0, none, 60, 0⟩ : TickState Unit)).tick_errors = k)
      ∧ (∀ k, k + 1 < MAX_TICK_ERRORS →
          (tickStep ((failStep "" ())^[k]
              (⟨0, "", "", 0, none, 60, 0⟩ : TickState Unit)) ""
            (Except.ok ()) (Except.error ())).2 = some 10)
      ∧ (tickStep ((failStep "" ())^[MAX_TICK_ERRORS - 1]
            (⟨0, "", "", 0, none, 60, 0⟩ : TickState Unit)) ""
          (Except.ok ()) (Except.error ())).2 = some 300
      ∧ ((failStep "" ())^[MAX_TICK_ERRORS]
          (⟨0, "", "", 0, none, 60, 0⟩ : TickState Unit)).tick_errors = 0
      ∧ (∀ s : TickState Unit,
          (tickStep s "" (Except.ok () : Except Unit Unit)
            (Except.ok () : Except Unit Unit)).1.tick_errors = 0)) :=
  ⟨by decide, rfl,
    scheduler_backoff (⟨0, "", "", 0, none, 60, 0⟩ : TickState Unit) "" () ()
      (by decide) rfl⟩

/-- The pruning epsilon is positive. -/
theorem NET_EPS_pos : (0 : ℚ) < NET_EPS := by decide

/-- A surviving output of `subEdge` is nonnegative (in fact above the
epsilon), with no assumption on the inputs. -/
theorem subEdge_nonneg (w : Option ℚ) (m : ℚ) (y : ℚ)
    (h : subEdge w m = some y) : 0 ≤ y := by
  cases w with
  | none => simp [subEdge] at h
  | some x =>
    simp only [subEdge] at h
    by_cases hc : x - m ≤ NET_EPS
    · simp [hc] at h
    · rw [if_neg hc] at h
      have hx : NET_EPS < x - m := lt_of_not_le hc
      have hy : x - m = y := by injection h
      have h0 := NET_EPS_pos
      linarith

/-- `subEdge` never increases the (0-defaulted) weight of an edge whose
current weight is nonnegative, provided the subtracted margin is
nonnegative. -/
theorem subEdge_getD_le (w : Option ℚ) (m : ℚ) (hm : 0 ≤ m)
    (hw : 0 ≤ w.getD 0) : (subEdge w m).getD 0 ≤ w.getD 0 := by
  cases w with
  | none => simp [subEdge]
  | some x =>
    simp only [subEdge, Option.getD_some] at hw ⊢
    by_cases hc : x - m ≤ NET_EPS
    · simpa [hc] using hw
    · rw [if_neg hc]
      simp only [Option.getD_some]
      linarith

/-- `foldl min` stays nonnegative on nonnegative inputs. -/
theorem foldl_min_nonneg (l : List ℚ) :
    ∀ a : ℚ, 0 ≤ a → (∀ x ∈ l, 0 ≤ x) → 0 ≤ l.foldl min a := by
  induction l with
  | nil => intro a ha _; exact ha
  | cons x xs ih =>
    intro a ha hl
    have hx : 0 ≤ x := hl x (List.mem_cons_self x xs)
    exact ih (min a x) (le_min ha hx)
      (fun y hy => hl y (List.mem_cons_of_mem x hy))

/-- `min(weights)` is nonnegative when every weight is. -/
theorem listMin_nonneg (l : List ℚ) (hl : ∀ x ∈ l, 0 ≤ x) :
    0 ≤ listMin l := by
  cases l with
  | nil => exact le_refl 0
  | cons w ws =>
    exact foldl_min_nonneg ws w (hl w (List.mem_cons_self w ws))
      (fun y hy => hl y (List.mem_cons_of_mem w hy))

/-- Folding single-edge subtractions over any edge list keeps every surviving
weight nonnegative and never increases any entry, provided the margin is
nonnegative. -/
theorem foldl_subEdgeAt_bounds {n : ℕ} (m : ℚ) (hm : 0 ≤ m) :
    ∀ (edges : List (Fin n × Fin n)) (G : WGraph n),
      (∀ i j w, G i j = some w → 0 ≤ w) →
      (∀ i j w, (edges.foldl (subEdgeAt m) G) i j = some w → 0 ≤ w)
      ∧ (∀ i j,
          ((edges.foldl (subEdgeAt m) G) i j).getD 0 ≤ (G i j).getD 0) := by
  intro edges
  induction edges with
  | nil => exact fun G hG => ⟨hG, fun i j => le_refl _⟩
  | cons e es ih =>
    intro G hG
    have hG' : ∀ i j w, subEdgeAt m G e i j = some w → 0 ≤ w := by
      intro i j w hw
      unfold subEdgeAt at hw
      by_cases hij : i = e.1 ∧ j = e.2
      · rw [if_pos hij] at hw
        exact subEdge_nonneg _ _ _ hw
      · rw [if_neg hij] at hw
        exact hG i j w hw
    have hstep : ∀ i j, (subEdgeAt m G e i j).getD 0 ≤ (G i j).getD 0 := by
      intro i j
      unfold subEdgeAt
      by_cases hij : i = e.1 ∧ j = e.2
      · rw [if_pos hij]
        refine subEdge_getD_le _ m hm ?_
        cases hGij : G i j with
        | none => simp
        | some x => simpa using hG i j x hGij
      · rw [if_neg hij]
    obtain ⟨h1, h2⟩ := ih (subEdgeAt m G e) hG'
    refine ⟨?_, ?_⟩
    · intro i j w hw
      exact h1 i j w hw
    · intro i j
      exact le_trans (h2 i j) (hstep i j)

/-- One cycle cancellation keeps every surviving weight nonnegative and never
increases any entry. -/
theorem applyCycle_bounds {n : ℕ} (G : WGraph n) (c : List (Fin n))
    (hG : ∀ i j w, G i j = some w → 0 ≤ w) :
    (∀ i j w, applyCycle G c i j = some w → 0 ≤ w)
    ∧ (∀ i j, (applyCycle G c i j).getD 0 ≤ (G i j).getD 0) := by
  unfold applyCycle
  by_cases h1 : (cycleEdges c).isEmpty
  · simp only [h1, if_pos]
    exact ⟨hG, fun i j => le_refl _⟩
  · by_cases h2 : (cycleEdges c).all (fun e => (G e.1 e.2).isSome)
    · simp only [h1, h2, if_neg, if_pos, Bool.false_eq_true,
        not_false_eq_true, if_true]
      have hmin : 0 ≤ listMin ((cycleEdges c).filterMap (fun e => G e.1 e.2)) := by
        refine listMin_nonneg _ ?_
        intro x hx
        rcases List.mem_filterMap.1 hx with ⟨e, -, he⟩
        exact hG e.1 e.2 x he
      exact foldl_subEdgeAt_bounds _ hmin (cycleEdges c) G hG
    · simp only [h1, h2, Bool.false_eq_true, not_false_eq_true,
        if_neg, if_true]
      exact ⟨hG, fun i j => le_refl _⟩

/-- Folding whole cycle cancellations keeps every surviving weight
nonnegative and never increases any entry. -/
theorem foldl_applyCycle_bounds {n : ℕ} :
    ∀ (cycles : List (List (Fin n))) (G : WGraph n),
      (∀ i j w, G i j = some w → 0 ≤ w) →
      (∀ i j w, (cycles.foldl applyCycle G) i j = some w → 0 ≤ w)
      ∧ (∀ i j,
          ((cycles.foldl applyCycle G) i j).getD 0 ≤ (G i j).getD 0) := by
  intro cycles
  induction cycles with
  | nil => exact fun G hG => ⟨hG, fun i j => le_refl _⟩
  | cons c cs ih =>
    intro G hG
    obtain ⟨hA1, hA2⟩ := applyCycle_bounds G c hG
    obtain ⟨h1, h2⟩ := ih (applyCycle G c) hA1
    exact ⟨h1, fun i j => le_trans (h2 i j) (hA2 i j)⟩

/-- C1: for every obligation matrix with nonnegative entries and zero
diagonal and every centrality vector, `minimize_payload` returns a netted
matrix whose surviving weights are all ≥ 0 together with totals satisfying
`net_load ≤ raw_load`. -/
theorem netting_invariant {n : ℕ} (M : Matrix (Fin n) (Fin n) ℚ)
    (c : Fin n → ℚ) (hM : ∀ i j, 0 ≤ M i j) (_hdiag : ∀ i, M i i = 0) :
    (minimize_payload M c).2.2 ≤ (minimize_payload M c).2.1
    ∧ ∀ i j, 0 ≤ (minimize_payload M c).1 i j := by
  have hG : ∀ i j w, graphOf M i j = some w → 0 ≤ w := by
    intro i j w hw
    unfold graphOf at hw
    by_cases h : M i j = 0
    · simp [h] at hw
    · simp only [h, if_neg, not_false_eq_true, Option.some.injEq] at hw
      rw [← hw]
      exact hM i j
  obtain ⟨h1, h2⟩ := foldl_applyCycle_bounds
    (sortByDesc (fun cy => (cy.map c).sum) (simpleCycles M)) (graphOf M) hG
  constructor
  · show gSize _ ≤ gSize (graphOf M)
    unfold gSize
    refine Finset.sum_le_sum (fun i _ => Finset.sum_le_sum (fun j _ => ?_))
    exact h2 i j
  · intro i j
    show 0 ≤ (toMatrix _ ) i j
    unfold toMatrix
    cases hx : (sortByDesc (fun cy => (cy.map c).sum)
        (simpleCycles M)).foldl applyCycle (graphOf M) i j with
    | none => simp
    | some w => simpa using h1 i j w hx

/-- Witness for C1 at a concrete 2-node matrix with one 2-cycle. -/
theorem netting_invariant_witness :
    (∀ i j, 0 ≤ (!![0, 1; 1, 0] : Matrix (Fin 2) (Fin 2) ℚ) i j)
    ∧ (∀ i, (!![0, 1; 1, 0] : Matrix (Fin 2) (Fin 2) ℚ) i i = 0)
    ∧ ((minimize_payload !![0, 1; 1, 0] ![1, 1]).2.2
        ≤ (minimize_payload !![0, 1; 1, 0] ![1, 1]).2.1
      ∧ ∀ i j, 0 ≤ (minimize_payload !![0, 1; 1, 0] ![1, 1]).1 i j) :=
  ⟨by decide, by decide,
    netting_invariant !![0, 1; 1, 0] ![1, 1] (by decide) (by decide)⟩

/-- `_norm01` always lands in `[0,1]`. -/
theorem norm01_mem {n : ℕ} (x : Fin n → ℚ) (i : Fin n) :
    0 ≤ norm01 x i ∧ norm01 x i ≤ 1 := by
  unfold norm01
  by_cases h : vecMax x ≤ 1e-12
  · simp [h]
  · simp only [h, if_neg, not_false_eq_true, if_false]
    exact ⟨le_min (le_max_right _ 0) zero_le_one, min_le_right _ 1⟩

/-- C8 (corrected): the source normalizes each component vector by dividing
by its maximum (`x / max(x)`, clipped into `[0,1]`), not by the min-max map
`(x - min) / (max - min)`; on a window with two identical rows of returns
`(-1, -2)` the two recipes disagree. -/
theorem risk_factor_minmax_counterexample :
    build_time_series_risk_factor RISK_FACTOR_WINDOW_DAYS RISK_EWMA_LAMBDA
        RISK_DOWNSIDE_WEIGHT [![-1, -2], ![-1, -2]]
      ≠ risk_factor_minmax RISK_FACTOR_WINDOW_DAYS RISK_EWMA_LAMBDA
        RISK_DOWNSIDE_WEIGHT ([![-1, -2], ![-1, -2]] : List (Fin 2 → ℚ)) := by
  decide

/-- C8 (amended): for every loaded return series with at least 2 rows in the
window, the risk factor equals the blend `(1−a)·v + a·d` where `v` is the
EWMA-volatility vector and `d` the downside-magnitude vector, each
independently normalized into `[0,1]` by division by its maximum (clipped),
`a` being the downside weight clamped to `[0,1]`; every component of the
result lies in `[0,1]`. -/
theorem risk_factor_blend {n : ℕ} (window_days : ℕ) (lam dw : ℚ)
    (rows : List (Fin n → ℚ))
    (h2 : 2 ≤ (lastWindow window_days rows).length) :
    (build_time_series_risk_factor window_days lam dw rows
      = fun i =>
          (1 - min (max dw 0) 1)
              * norm01 (ewmaVolVec lam (lastWindow window_days rows)) i
            + min (max dw 0) 1
              * norm01 (downsideVec (lastWindow window_days rows)) i)
    ∧ (∀ i, 0 ≤ build_time_series_risk_factor window_days lam dw rows i
        ∧ build_time_series_risk_factor window_days lam dw rows i ≤ 1) := by
  have hnot : ¬ (lastWindow window_days rows).length < 2 := not_lt.mpr h2
  have heq : build_time_series_risk_factor window_days lam dw rows
      = fun i =>
          (1 - min (max dw 0) 1)
              * norm01 (ewmaVolVec lam (lastWindow window_days rows)) i
            + min (max dw 0) 1
              * norm01 (downsideVec (lastWindow window_days rows)) i := by
    unfold build_time_series_risk_factor
    rw [if_neg hnot]
  refine ⟨heq, fun i => ?_⟩
  rw [heq]
  dsimp only
  have ha0 : 0 ≤ min (max dw 0) 1 := le_min (le_max_right _ 0) zero_le_one
  have ha1 : min (max dw 0) 1 ≤ 1 := min_le_right _ 1
  obtain ⟨hv0, hv1⟩ := norm01_mem (ewmaVolVec lam (lastWindow window_days rows)) i
  obtain ⟨hd0, hd1⟩ := norm01_mem (downsideVec (lastWindow window_days rows)) i
  constructor
  · exact add_nonneg (mul_nonneg (by linarith) hv0) (mul_nonneg ha0 hd0)
  · have hb1 : (1 - min (max dw 0) 1)
        * norm01 (ewmaVolVec lam (lastWindow window_days rows)) i
        ≤ (1 - min (max dw 0) 1) * 1 :=
      mul_le_mul_of_nonneg_left hv1 (by linarith)
    have hb2 : min (max dw 0) 1
        * norm01 (downsideVec (lastWindow window_days rows)) i
        ≤ min (max dw 0) 1 * 1 :=
      mul_le_mul_of_nonneg_left hd1 ha0
    linarith

/-- Witness for the amended C8 at the concrete two-row window of the
counterexample. -/
theorem risk_factor_blend_witness :
    (2 ≤ (lastWindow RISK_FACTOR_WINDOW_DAYS
        ([![-1, -2], ![-1, -2]] : List (Fin 2 → ℚ))).length)
    ∧ ((build_time_series_risk_factor RISK_FACTOR_WINDOW_DAYS
          RISK_EWMA_LAMBDA RISK_DOWNSIDE_WEIGHT
          ([![-1, -2], ![-1, -2]] : List (Fin 2 → ℚ))
        = fun i =>
            (1 - min (max RISK_DOWNSIDE_WEIGHT 0) 1)
                * norm01 (ewmaVolVec RISK_EWMA_LAMBDA
                    (lastWindow RISK_FACTOR_WINDOW_DAYS
                      ([![-1, -2], ![-1, -2]] : List (Fin 2 → ℚ)))) i
              + min (max RISK_DOWNSIDE_WEIGHT 0) 1
                * norm01 (downsideVec
                    (lastWindow RISK_FACTOR_WINDOW_DAYS
                      ([![-1, -2], ![-1, -2]] : List (Fin 2 → ℚ)))) i)
      ∧ (∀ i, 0 ≤ build_time_series_risk_factor RISK_FACTOR_WINDOW_DAYS
            RISK_EWMA_LAMBDA RISK_DOWNSIDE_WEIGHT
            ([![-1, -2], ![-1, -2]] : List (Fin 2 → ℚ)) i
          ∧ build_time_series_risk_factor RISK_FACTOR_WINDOW_DAYS
            RISK_EWMA_LAMBDA RISK_DOWNSIDE_WEIGHT
            ([![-1, -2], ![-1, -2]] : List (Fin 2 → ℚ)) i ≤ 1)) :=
  ⟨by decide,
    risk_factor_blend RISK_FACTOR_WINDOW_DAYS RISK_EWMA_LAMBDA
      RISK_DOWNSIDE_WEIGHT ([![-1, -2], ![-1, -2]] : List (Fin 2 → ℚ))
      (by decide)⟩

/-- The `flow_score` closure computes exactly the spec's stress formula
chain. -/
theorem flow_score_eq_stressSpec {n : ℕ} (liquidity : Fin n → ℝ)
    (O : Matrix (Fin n) (Fin n) ℝ) (i : Fin n) :
    flow_score liquidity O i = stressSpec liquidity O i := by
  unfold flow_score stressSpec netSpec scaleSpec inflowSpec outflowSpec
  simp [Matrix.transpose_apply]

/-- C4: `_risk_jacobian` computes the per-node stress via
`inflow_i = Σ_k O[k][i]`, `outflow_i = Σ_j O[i][j]`,
`net_i = liquidity_i + inflow_i − outflow_i`, `scale_i = max(outflow_i, 1)`,
`stress_i = sigmoid(−net_i / scale_i)`, and returns
`R[i][j] = Σ_k ∂stress_i / ∂O[j][k]` (derivatives of node `i`'s stress with
respect to all obligations originating at node `j`, summed over
destinations). -/
theorem risk_jacobian_spec {n : ℕ} (pred_O : Matrix (Fin n) (Fin n) ℝ)
    (liquidity : Fin n → ℝ) :
    (∀ i, flow_score liquidity pred_O i = stressSpec liquidity pred_O i)
    ∧ (∀ i j, risk_jacobian pred_O liquidity i j
        = ∑ k, deriv
            (fun t => stressSpec liquidity (updEntry pred_O j k t) i)
            (pred_O j k)) := by
  refine ⟨fun i => flow_score_eq_stressSpec liquidity pred_O i, fun i j => ?_⟩
  unfold risk_jacobian
  refine Finset.sum_congr rfl (fun k _ => ?_)
  unfold jacobianEntry
  have hfun : (fun t => flow_score liquidity (updEntry pred_O j k t) i)
      = fun t => stressSpec liquidity (updEntry pred_O j k t) i :=
    funext fun t => flow_score_eq_stressSpec liquidity (updEntry pred_O j k t) i
  rw [hfun]

/-- The seed of a `foldl max` is a lower bound of the result. -/
theorem le_foldl_max (l : List ℝ) : ∀ a : ℝ, a ≤ l.foldl max a := by
  induction l with
  | nil => exact fun a => le_refl a
  | cons y ys ih =>
    exact fun a => le_trans (le_max_left a y) (ih (max a y))

/-- `foldl max` splits off the left component of a `max` seed. -/
theorem foldl_max_split (l : List ℝ) :
    ∀ a b : ℝ, l.foldl max (max a b) = max a (l.foldl max b) := by
  induction l with
  | nil => exact fun a b => rfl
  | cons y ys ih =>
    intro a b
    show ys.foldl max (max (max a b) y) = max a (ys.foldl max (max b y))
    rw [max_assoc]
    exact ih a (max b y)

/-- `np.max` of a nonempty cons. -/
theorem npMaxR_cons (x : ℝ) (l : List ℝ) (hl : l ≠ []) :
    npMaxR (x :: l) = max x (npMaxR l) := by
  cases l with
  | nil => exact absurd rfl hl
  | cons y ys =>
    show ys.foldl max (max x y) = max x (ys.foldl max y)
    exact foldl_max_split ys x y

/-- `np.max` of a nonempty list is attained. -/
theorem npMaxR_mem (l : List ℝ) (hl : l ≠ []) : npMaxR l ∈ l := by
  induction l with
  | nil => exact absurd rfl hl
  | cons x xs ih =>
    by_cases hxs : xs = []
    · subst hxs
      show x ∈ [x]
      exact List.mem_singleton_self x
    · rw [npMaxR_cons x xs hxs]
      rcases le_total (npMaxR xs) x with h | h
      · rw [max_eq_left h]
        exact List.mem_cons_self x xs
      · rw [max_eq_right h]
        exact List.mem_cons_of_mem x (ih hxs)

/-- `np.max` bounds every element. -/
theorem le_npMaxR (l : List ℝ) (y : ℝ) (hy : y ∈ l) : y ≤ npMaxR l := by
  induction l with
  | nil => simp at hy
  | cons x xs ih =>
    by_cases hxs : xs = []
    · subst hxs
      have : y = x := by simpa using hy
      subst this
      exact le_refl y
    · rw [npMaxR_cons x xs hxs]
      rcases List.mem_cons.1 hy with h | h
      · subst h
        exact le_max_left y (npMaxR xs)
      · exact le_trans (ih h) (le_max_right x (npMaxR xs))

/-- `np.max` of a nonempty list is the greatest element of its value set. -/
theorem npMaxR_isGreatest (l : List ℝ) (hl : l ≠ []) :
    IsGreatest {x : ℝ | x ∈ l} (npMaxR l) :=
  ⟨npMaxR_mem l hl, fun y hy => le_npMaxR l y hy⟩

/-- `np.argmax` on a nonempty list is in range, attains the maximum, and is
the FIRST index doing so (everything before it is strictly below the
maximum). -/
theorem argmaxIdx_spec (l : List ℝ) (hl : l ≠ []) :
    argmaxIdx l < l.length
    ∧ l.getD (argmaxIdx l) 0 = npMaxR l
    ∧ ∀ j, j < argmaxIdx l → l.getD j 0 < npMaxR l := by
  induction l with
  | nil => exact absurd rfl hl
  | cons x xs ih =>
    by_cases hxs : xs = []
    · subst hxs
      have h0 : argmaxIdx [x] = 0 := by
        simp only [argmaxIdx]
        rw [if_pos (show npMaxR [x] ≤ x from le_refl x)]
      refine ⟨by rw [h0]; exact Nat.zero_lt_one, by rw [h0]; rfl, ?_⟩
      intro j hj
      rw [h0] at hj
      exact absurd hj (Nat.not_lt_zero j)
    · by_cases hc : npMaxR (x :: xs) ≤ x
      · have h0 : argmaxIdx (x :: xs) = 0 := by
          simp only [argmaxIdx]
          rw [if_pos hc]
        have hx : npMaxR (x :: xs) = x :=
          le_antisymm hc (le_foldl_max xs x)
        refine ⟨by rw [h0]; exact Nat.zero_lt_succ _, ?_, ?_⟩
        · rw [h0, List.getD_cons_zero, hx]
        · intro j hj
          rw [h0] at hj
          exact absurd hj (Nat.not_lt_zero j)
      · have h1 : argmaxIdx (x :: xs) = argmaxIdx xs + 1 := by
          simp only [argmaxIdx]
          rw [if_neg hc]
        have hxlt : x < npMaxR (x :: xs) := lt_of_not_le hc
        have hM : npMaxR (x :: xs) = npMaxR xs := by
          rw [npMaxR_cons x xs hxs]
          rcases le_total (npMaxR xs) x with h | h
          · rw [npMaxR_cons x xs hxs, max_eq_left h] at hxlt
            exact absurd hxlt (lt_irrefl x)
          · exact max_eq_right h
        obtain ⟨hlen, hval, hlt⟩ := ih hxs
        refine ⟨?_, ?_, ?_⟩
        · rw [h1]
          exact Nat.succ_lt_succ hlen
        · rw [h1, List.getD_cons_succ, hval, hM]
        · intro j hj
          rw [h1] at hj
          cases j with
          | zero =>
            rw [List.getD_cons_zero]
            exact hxlt
          | succ m =>
            rw [List.getD_cons_succ, hM]
            exact hlt m (Nat.lt_of_succ_lt_succ hj)

/-- C3: parameterized by the eigen-decomposition `np.linalg.eig` hands back
(a list of eigenvalues enumerating exactly the roots of the characteristic
polynomial, plus the matching eigenvector columns), `get_systemic_hubs`
returns a stability index equal to the spectral radius of `R`; its centrality
vector is the component-wise magnitude of the eigenvector column at the
argmax index; and that index is in range, attains the maximum eigenvalue
magnitude, and is the FIRST index to do so (so ties are broken
deterministically and identical decompositions give identical outputs). -/
theorem hub_detector_spec {n : ℕ} (R : Matrix (Fin n) (Fin n) ℝ)
    (eigenvalues : List ℂ) (eigenvectors : List (Fin n → ℂ))
    (hspec : ∀ μ : ℂ, μ ∈ eigenvalues ↔
      (R.map (fun x => (x : ℂ)) - μ • 1).det = 0)
    (hne : eigenvalues ≠ []) :
    (get_systemic_hubs eigenvalues eigenvectors).2 = specRadius R
    ∧ (get_systemic_hubs eigenvalues eigenvectors).1
        = (fun i => Complex.abs
            (eigenvectors.getD (argmaxIdx (eigenvalues.map Complex.abs))
              (fun _ => 0) i))
    ∧ (argmaxIdx (eigenvalues.map Complex.abs)
          < (eigenvalues.map Complex.abs).length
      ∧ (eigenvalues.map Complex.abs).getD
          (argmaxIdx (eigenvalues.map Complex.abs)) 0
          = npMaxR (eigenvalues.map Complex.abs)
      ∧ ∀ j, j < argmaxIdx (eigenvalues.map Complex.abs) →
          (eigenvalues.map Complex.abs).getD j 0
            < npMaxR (eigenvalues.map Complex.abs))
    ∧ (get_systemic_hubs eigenvalues eigenvectors).2
        = npMaxR (eigenvalues.map Complex.abs) := by
  have hmagsne : eigenvalues.map Complex.abs ≠ [] := by
    simpa using hne
  have hset : Set.image Complex.abs
      { μ : ℂ | (R.map (fun x => (x : ℂ)) - μ • 1).det = 0 }
      = { x : ℝ | x ∈ eigenvalues.map Complex.abs } := by
    ext r
    simp only [Set.mem_image, Set.mem_setOf_eq, List.mem_map]
    constructor
    · rintro ⟨μ, hdet, rfl⟩
      exact ⟨μ, (hspec μ).2 hdet, rfl⟩
    · rintro ⟨μ, hμ, rfl⟩
      exact ⟨μ, (hspec μ).1 hμ, rfl⟩
  have hsup : specRadius R = npMaxR (eigenvalues.map Complex.abs) := by
    unfold specRadius
    rw [hset]
    exact (npMaxR_isGreatest _ hmagsne).csSup_eq
  refine ⟨?_, rfl, argmaxIdx_spec _ hmagsne, rfl⟩
  rw [hsup]
  rfl

/-- The list `[2, -3]` enumerates exactly the complex characteristic roots of
the diagonal matrix `diag(2, -3)`. -/
theorem sampleEig_spec :
    ∀ μ : ℂ, μ ∈ [(2 : ℂ), -3] ↔
      (((!![2, 0; 0, -3] : Matrix (Fin 2) (Fin 2) ℝ).map (fun x => (x : ℂ)))
        - μ • 1).det = 0 := by
  intro μ
  have hdet : (((!![2, 0; 0, -3] : Matrix (Fin 2) (Fin 2) ℝ).map
        (fun x => (x : ℂ))) - μ • 1).det
      = (2 - μ) * (-3 - μ) := by
    rw [Matrix.det_fin_two]
    simp [Matrix.map_apply, Matrix.sub_apply, Matrix.smul_apply,
      Matrix.one_apply, smul_eq_mul]
  rw [hdet, mul_eq_zero, sub_eq_zero, sub_eq_zero]
  simp [List.mem_cons, eq_comm]

/-- Witness for C3 at the analytically known matrix `diag(2, -3)` with
eigenvalues `2` and `-3` and the standard basis as eigenvectors. -/
theorem hub_detector_spec_witness :
    (∀ μ : ℂ, μ ∈ [(2 : ℂ), -3] ↔
      (((!![2, 0; 0, -3] : Matrix (Fin 2) (Fin 2) ℝ).map (fun x => (x : ℂ)))
        - μ • 1).det = 0)
    ∧ ([(2 : ℂ), -3] ≠ [])
    ∧ ((get_systemic_hubs [(2 : ℂ), -3]
          ([![1, 0], ![0, 1]] : List (Fin 2 → ℂ))).2
        = specRadius (!![2, 0; 0, -3] : Matrix (Fin 2) (Fin 2) ℝ)
      ∧ (get_systemic_hubs [(2 : ℂ), -3]
          ([![1, 0], ![0, 1]] : List (Fin 2 → ℂ))).1
          = (fun i => Complex.abs
              (([![1, 0], ![0, 1]] : List (Fin 2 → ℂ)).getD
                (argmaxIdx (([(2 : ℂ), -3]).map Complex.abs))
                (fun _ => 0) i))
      ∧ (argmaxIdx (([(2 : ℂ), -3]).map Complex.abs)
            < (([(2 : ℂ), -3]).map Complex.abs).length
        ∧ (([(2 : ℂ), -3]).map Complex.abs).getD
            (argmaxIdx (([(2 : ℂ), -3]).map Complex.abs)) 0
            = npMaxR (([(2 : ℂ), -3]).map Complex.abs)
        ∧ ∀ j, j < argmaxIdx (([(2 : ℂ), -3]).map Complex.abs) →
            (([(2 : ℂ), -3]).map Complex.abs).getD j 0
              < npMaxR (([(2 : ℂ), -3]).map Complex.abs))
      ∧ (get_systemic_hubs [(2 : ℂ), -3]
          ([![1, 0], ![0, 1]] : List (Fin 2 → ℂ))).2
          = npMaxR (([(2 : ℂ), -3]).map Complex.abs)) :=
  ⟨sampleEig_spec, by simp,
    hub_detector_spec !![2, 0; 0, -3] [(2 : ℂ), -3]
      ([![1, 0], ![0, 1]] : List (Fin 2 → ℂ)) sampleEig_spec (by simp)⟩

end ReLuLu
